import Mathlib

/-!
# Verification of the Orbit Shield proximity / risk-assessment engine

Shallow embedding of the Python backend (`Backend/core/ai/*.py`,
`Backend/core/orbital/*.py`, `Backend/services/collision_service.py`) together
with proofs of the specified properties.

Conventions:
* Python floats are modelled as real numbers (`ℝ`); grid/bookkeeping values
  that the code manipulates exactly (cell indices, risk levels) are modelled
  as `ℤ` / `ℕ`, and positions fed to the integer grid as `ℚ`.
* `None`-able arguments become `Option ℝ`.
* `numpy` 3-vectors become `Fin 3 → ℝ`; `np.linalg.norm` is
  `Real.sqrt (v·v)`.
* Python `round(x, n)` (banker's rounding) is `roundHalfEven`.
-/

namespace OrbitShield

/-! ## Vector primitives (`physics_utils.py`, `vector_math.py`) -/

/-- 3-vectors, as in the numpy arrays `[x, y, z]` of the source. -/
abbrev Vec3 := Fin 3 → ℝ

/-- Build a concrete 3-vector. -/
def mkVec (a b c : ℝ) : Vec3 := fun i => if i.val = 0 then a else if i.val = 1 then b else c

/-- `np.dot` for 3-vectors. -/
def dotv (u v : Vec3) : ℝ := u 0 * v 0 + u 1 * v 1 + u 2 * v 2

/-- `np.linalg.norm` for 3-vectors (`physics_utils.norm`). -/
noncomputable def normv (v : Vec3) : ℝ := Real.sqrt (dotv v v)

/-- `np.cross` for 3-vectors. -/
def cross (u v : Vec3) : Vec3 :=
  mkVec (u 1 * v 2 - u 2 * v 1) (u 2 * v 0 - u 0 * v 2) (u 0 * v 1 - u 1 * v 0)

/-- `physics_utils.unit`: normalize, returning the zero vector for zero input. -/
noncomputable def unitv (v : Vec3) : Vec3 :=
  if normv v = 0 then (fun _ => 0) else (normv v)⁻¹ • v

lemma dotv_self_nonneg (v : Vec3) : 0 ≤ dotv v v := by
  unfold dotv
  nlinarith [sq_nonneg (v 0), sq_nonneg (v 1), sq_nonneg (v 2)]

lemma normv_nonneg (v : Vec3) : 0 ≤ normv v := Real.sqrt_nonneg _

lemma normv_sq (v : Vec3) : normv v ^ 2 = dotv v v := by
  unfold normv
  rw [Real.sq_sqrt (dotv_self_nonneg v)]

lemma normv_pos_iff (v : Vec3) : 0 < normv v ↔ 0 < dotv v v := by
  unfold normv
  exact Real.sqrt_pos

lemma dotv_comm (u v : Vec3) : dotv u v = dotv v u := by unfold dotv; ring

lemma dotv_smul_left (c : ℝ) (u v : Vec3) : dotv (c • u) v = c * dotv u v := by
  unfold dotv
  simp only [Pi.smul_apply, smul_eq_mul]
  ring

lemma dotv_add_left (u w v : Vec3) : dotv (u + w) v = dotv u v + dotv w v := by
  unfold dotv
  simp only [Pi.add_apply]
  ring

lemma normv_smul (c : ℝ) (v : Vec3) : normv (c • v) = |c| * normv v := by
  unfold normv
  have h : dotv (c • v) (c • v) = c ^ 2 * dotv v v := by
    unfold dotv
    simp only [Pi.smul_apply, smul_eq_mul]
    ring
  rw [h, Real.sqrt_mul (by positivity), Real.sqrt_sq_eq_abs]

lemma normv_unitv (v : Vec3) (hv : normv v ≠ 0) : normv (unitv v) = 1 := by
  unfold unitv
  rw [if_neg hv, normv_smul]
  have hpos : 0 < normv v := lt_of_le_of_ne (normv_nonneg v) (Ne.symm hv)
  rw [abs_of_pos (by positivity)]
  field_simp

/-- Cauchy–Schwarz for `dotv`, via the Lagrange identity. -/
lemma dotv_sq_le (u v : Vec3) : dotv u v ^ 2 ≤ dotv u u * dotv v v := by
  unfold dotv
  nlinarith [sq_nonneg (u 0 * v 1 - u 1 * v 0), sq_nonneg (u 0 * v 2 - u 2 * v 0),
    sq_nonneg (u 1 * v 2 - u 2 * v 1)]

lemma neg_normv_mul_le_dotv (u v : Vec3) : -(normv u * normv v) ≤ dotv u v := by
  have h := dotv_sq_le u v
  have hn : (normv u * normv v) ^ 2 = dotv u u * dotv v v := by
    rw [mul_pow, normv_sq, normv_sq]
  have habs : |dotv u v| ≤ normv u * normv v := by
    have h2 : dotv u v ^ 2 ≤ (normv u * normv v) ^ 2 := by rw [hn]; exact h
    calc |dotv u v| = Real.sqrt (dotv u v ^ 2) := (Real.sqrt_sq_eq_abs _).symm
      _ ≤ Real.sqrt ((normv u * normv v) ^ 2) := Real.sqrt_le_sqrt h2
      _ = |normv u * normv v| := Real.sqrt_sq_eq_abs _
      _ = normv u * normv v := abs_of_nonneg (mul_nonneg (normv_nonneg u) (normv_nonneg v))
  linarith [neg_abs_le (dotv u v)]

/-- Reverse triangle inequality for `normv`. -/
lemma normv_add_ge (u v : Vec3) : normv u - normv v ≤ normv (u + v) := by
  have hexp : dotv (u + v) (u + v) = dotv u u + 2 * dotv u v + dotv v v := by
    unfold dotv
    simp only [Pi.add_apply]
    ring
  have hq : (normv u - normv v) ^ 2 ≤ dotv (u + v) (u + v) := by
    rw [hexp]
    have h1 := neg_normv_mul_le_dotv u v
    nlinarith [normv_sq u, normv_sq v]
  calc normv u - normv v ≤ |normv u - normv v| := le_abs_self _
    _ = Real.sqrt ((normv u - normv v) ^ 2) := (Real.sqrt_sq_eq_abs _).symm
    _ ≤ Real.sqrt (dotv (u + v) (u + v)) := Real.sqrt_le_sqrt hq
    _ = normv (u + v) := rfl

/-! ## Continuous risk scorer (`model1_risk_predictor.py`) -/

/-- `predict_risk_from_features` from `model1_risk_predictor.py`.  Note that
the `base = max(base, base_tca * time_factor)` update sits inside the
`if tca_seconds is not None` block of the source. -/
noncomputable def predict_risk_from_features (distance rel_velocity angle altitude_diff : ℝ)
    (distance_at_tca tca_seconds : Option ℝ) : ℝ :=
  let d := max distance 0.001
  let base0 := Real.exp (-d / 30)
  let base :=
    match distance_at_tca with
    | none => base0
    | some datca =>
      let base_tca := Real.exp (-(max datca 0.001) / 20) * 0.8
      match tca_seconds with
      | none => base0
      | some t =>
        let time_factor := if 0 ≤ t then 1 + max 0 ((72 * 3600 - t) / (72 * 3600)) * 0.5 else 1
        max base0 (base_tca * time_factor)
  let vel_factor := min (rel_velocity / 12) 1 * 0.4
  let angle_contrib := angle / 180 * 0.2
  let alt_factor := max 0 (1 - min (altitude_diff / 50) 1) * 0.3
  let prob := base * 0.7 + vel_factor * 1 + angle_contrib + alt_factor * 0.5
  max 0 (min 1 prob)

/-- The continuous-scorer formula exactly as the claim words it: whenever
`distance_at_tca` is provided the base is replaced by
`max(base, exp(−max(distance_at_tca,0.001)/20)·0.8·time_factor)`, with
`time_factor = 1` when `tca_seconds` is negative **or absent**. -/
noncomputable def predictRiskClaimFormula (distance rel_velocity angle altitude_diff : ℝ)
    (distance_at_tca tca_seconds : Option ℝ) : ℝ :=
  let base0 := Real.exp (-(max distance 0.001) / 30)
  let base :=
    match distance_at_tca with
    | none => base0
    | some datca =>
      let time_factor :=
        match tca_seconds with
        | none => (1 : ℝ)
        | some t => if 0 ≤ t then 1 + max 0 ((259200 - t) / 259200) * 0.5 else 1
      max base0 (Real.exp (-(max datca 0.001) / 20) * 0.8 * time_factor)
  max 0 (min 1 (base * 0.7 + min (rel_velocity / 12) 1 * 0.4 + angle / 180 * 0.2
    + max 0 (1 - min (altitude_diff / 50) 1) * 0.3 * 0.5))

/-- The continuous-scorer formula as the claim words it, amended in one point:
the `base` replacement only happens when **both** `distance_at_tca` and
`tca_seconds` are provided (when `tca_seconds` is absent the plain
distance-based base is kept); `time_factor = 1` for negative `tca_seconds`. -/
noncomputable def predictRiskAmendedFormula (distance rel_velocity angle altitude_diff : ℝ)
    (distance_at_tca tca_seconds : Option ℝ) : ℝ :=
  let base0 := Real.exp (-(max distance 0.001) / 30)
  let base :=
    match distance_at_tca, tca_seconds with
    | some datca, some t =>
      let time_factor := if 0 ≤ t then 1 + max 0 ((259200 - t) / 259200) * 0.5 else 1
      max base0 (Real.exp (-(max datca 0.001) / 20) * 0.8 * time_factor)
    | _, _ => base0
  max 0 (min 1 (base * 0.7 + min (rel_velocity / 12) 1 * 0.4 + angle / 180 * 0.2
    + max 0 (1 - min (altitude_diff / 50) 1) * 0.3 * 0.5))

lemma predict_unfold_some_none (d rv a ad datca : ℝ) :
    predict_risk_from_features d rv a ad (some datca) none =
      max 0 (min 1 (Real.exp (-max d 0.001 / 30) * 0.7 + min (rv / 12) 1 * 0.4 * 1
        + a / 180 * 0.2 + max 0 (1 - min (ad / 50) 1) * 0.3 * 0.5)) := rfl

lemma predictClaim_unfold_some_none (d rv a ad datca : ℝ) :
    predictRiskClaimFormula d rv a ad (some datca) none =
      max 0 (min 1 (max (Real.exp (-max d 0.001 / 30))
          (Real.exp (-max datca 0.001 / 20) * 0.8 * 1) * 0.7
        + min (rv / 12) 1 * 0.4 + a / 180 * 0.2
        + max 0 (1 - min (ad / 50) 1) * 0.3 * 0.5)) := rfl

lemma predict_unfold_none (d rv a ad : ℝ) (ot : Option ℝ) :
    predict_risk_from_features d rv a ad none ot =
      max 0 (min 1 (Real.exp (-max d 0.001 / 30) * 0.7 + min (rv / 12) 1 * 0.4 * 1
        + a / 180 * 0.2 + max 0 (1 - min (ad / 50) 1) * 0.3 * 0.5)) := by
  cases ot <;> rfl

lemma predict_unfold_some_some (d rv a ad datca t : ℝ) :
    predict_risk_from_features d rv a ad (some datca) (some t) =
      max 0 (min 1 (max (Real.exp (-max d 0.001 / 30))
          (Real.exp (-max datca 0.001 / 20) * 0.8 *
            (if 0 ≤ t then 1 + max 0 ((72 * 3600 - t) / (72 * 3600)) * 0.5 else 1)) * 0.7
        + min (rv / 12) 1 * 0.4 * 1 + a / 180 * 0.2
        + max 0 (1 - min (ad / 50) 1) * 0.3 * 0.5)) := rfl

lemma amended_unfold_none (d rv a ad : ℝ) (ot : Option ℝ) :
    predictRiskAmendedFormula d rv a ad none ot =
      max 0 (min 1 (Real.exp (-max d 0.001 / 30) * 0.7 + min (rv / 12) 1 * 0.4
        + a / 180 * 0.2 + max 0 (1 - min (ad / 50) 1) * 0.3 * 0.5)) := by
  cases ot <;> rfl

lemma amended_unfold_some_none (d rv a ad datca : ℝ) :
    predictRiskAmendedFormula d rv a ad (some datca) none =
      max 0 (min 1 (Real.exp (-max d 0.001 / 30) * 0.7 + min (rv / 12) 1 * 0.4
        + a / 180 * 0.2 + max 0 (1 - min (ad / 50) 1) * 0.3 * 0.5)) := rfl

lemma amended_unfold_some_some (d rv a ad datca t : ℝ) :
    predictRiskAmendedFormula d rv a ad (some datca) (some t) =
      max 0 (min 1 (max (Real.exp (-max d 0.001 / 30))
          (Real.exp (-max datca 0.001 / 20) * 0.8 *
            (if 0 ≤ t then 1 + max 0 ((259200 - t) / 259200) * 0.5 else 1)) * 0.7
        + min (rv / 12) 1 * 0.4 + a / 180 * 0.2
        + max 0 (1 - min (ad / 50) 1) * 0.3 * 0.5)) := rfl

lemma exp_neg_sevenThirds_lt : Real.exp (-(7 / 3) : ℝ) < 0.8 := by
  have h1 : (2.7 : ℝ) < Real.exp 1 := lt_trans (by norm_num) Real.exp_one_gt_d9
  have h2 : Real.exp (-(7 / 3) : ℝ) ≤ Real.exp (-2) := Real.exp_le_exp.mpr (by norm_num)
  have h3 : Real.exp (-2 : ℝ) = (Real.exp 1 * Real.exp 1)⁻¹ := by
    rw [← Real.exp_add, Real.exp_neg]
    norm_num
  have h4 : (7.29 : ℝ) < Real.exp 1 * Real.exp 1 := by nlinarith [Real.exp_pos 1]
  have h5 : (Real.exp 1 * Real.exp 1)⁻¹ < (7.29 : ℝ)⁻¹ :=
    inv_strictAnti₀ (by norm_num) h4
  have h6 : ((7.29 : ℝ))⁻¹ < 0.8 := by norm_num
  linarith [h2, h3 ▸ lt_trans h5 h6]

lemma exp_tenThirds_lt_claim : Real.exp (-(10 / 3) : ℝ) < 0.8 * Real.exp (-1) := by
  have h : Real.exp (-(10 / 3) : ℝ) = Real.exp (-(7 / 3)) * Real.exp (-1) := by
    rw [← Real.exp_add]
    norm_num
  rw [h]
  exact mul_lt_mul_of_pos_right exp_neg_sevenThirds_lt (Real.exp_pos _)

/-- C2: For every real-valued feature input (any distance, relative velocity,
angle, altitude difference, and optional `distance_at_tca` / `tca_seconds`),
the continuous risk scorer's returned probability lies in `[0, 1]`. -/
theorem predict_risk_mem_unit_interval (d rv a ad : ℝ) (odt ot : Option ℝ) :
    0 ≤ predict_risk_from_features d rv a ad odt ot ∧
      predict_risk_from_features d rv a ad odt ot ≤ 1 := by
  obtain ⟨p, hp⟩ : ∃ p, predict_risk_from_features d rv a ad odt ot = max 0 (min 1 p) := by
    cases odt <;> cases ot <;> exact ⟨_, rfl⟩
  rw [hp]
  exact ⟨le_max_left _ _, max_le zero_le_one (min_le_left _ _)⟩

/-- C1 (counterexample): the claimed formula replaces `base` whenever
`distance_at_tca` is provided, even with `tca_seconds` absent; the code only
replaces it inside the `tca_seconds is not None` branch.  At
`distance = 100`, `distance_at_tca = 20`, `tca_seconds = None` the two
disagree. -/
theorem predict_risk_claim_counterexample :
    predict_risk_from_features 100 0 0 100 (some 20) none ≠
      predictRiskClaimFormula 100 0 0 100 (some 20) none := by
  have e1le : Real.exp (-(10 / 3) : ℝ) ≤ 1 := Real.exp_le_one_iff.mpr (by norm_num)
  have e1pos := Real.exp_pos (-(10 / 3) : ℝ)
  have e2lt : Real.exp (-1 : ℝ) < 1 := Real.exp_lt_one_iff.mpr (by norm_num)
  have e2pos := Real.exp_pos (-1 : ℝ)
  have hcode : predict_risk_from_features 100 0 0 100 (some 20) none
      = Real.exp (-(10 / 3) : ℝ) * 0.7 := by
    rw [predict_unfold_some_none]
    rw [max_eq_left (show (0.001 : ℝ) ≤ 100 by norm_num)]
    rw [min_eq_left (show (0 : ℝ) / 12 ≤ 1 by norm_num)]
    rw [min_eq_right (show (1 : ℝ) ≤ 100 / 50 by norm_num)]
    have hsum : Real.exp (-(100 : ℝ) / 30) * 0.7 + (0 : ℝ) / 12 * 0.4 * 1
        + (0 : ℝ) / 180 * 0.2 + max 0 (1 - 1) * 0.3 * 0.5
        = Real.exp (-(10 / 3) : ℝ) * 0.7 := by
      norm_num
    rw [hsum, min_eq_right (by nlinarith), max_eq_right (by positivity)]
  have hclaim : predictRiskClaimFormula 100 0 0 100 (some 20) none
      = Real.exp (-1 : ℝ) * 0.8 * 1 * 0.7 := by
    rw [predictClaim_unfold_some_none]
    rw [max_eq_left (show (0.001 : ℝ) ≤ 100 by norm_num)]
    rw [max_eq_left (show (0.001 : ℝ) ≤ 20 by norm_num)]
    rw [min_eq_left (show (0 : ℝ) / 12 ≤ 1 by norm_num)]
    rw [min_eq_right (show (1 : ℝ) ≤ 100 / 50 by norm_num)]
    have hmax : max (Real.exp (-(100 : ℝ) / 30)) (Real.exp (-(20 : ℝ) / 20) * 0.8 * 1)
        = Real.exp (-1 : ℝ) * 0.8 * 1 := by
      rw [show (-(20 : ℝ) / 20) = (-1 : ℝ) by norm_num,
        show (-(100 : ℝ) / 30) = (-(10 / 3) : ℝ) by norm_num]
      exact max_eq_right (by nlinarith [exp_tenThirds_lt_claim])
    rw [hmax]
    have hsum : Real.exp (-1 : ℝ) * 0.8 * 1 * 0.7 + (0 : ℝ) / 12 * 0.4
        + (0 : ℝ) / 180 * 0.2 + max 0 (1 - 1) * 0.3 * 0.5
        = Real.exp (-1 : ℝ) * 0.8 * 1 * 0.7 := by
      norm_num
    rw [hsum, min_eq_right (by nlinarith), max_eq_right (by positivity)]
  rw [hcode, hclaim]
  intro h
  nlinarith [exp_tenThirds_lt_claim]

/-- C1 (amended): the continuous risk scorer returns exactly the claimed
clamped formula, with the `base` replacement applied only when both
`distance_at_tca` and `tca_seconds` are provided (`time_factor = 1` for
negative `tca_seconds`). -/
theorem predict_risk_eq_amended_formula (d rv a ad : ℝ) (odt ot : Option ℝ) :
    predict_risk_from_features d rv a ad odt ot
      = predictRiskAmendedFormula d rv a ad odt ot := by
  cases odt with
  | none => rw [predict_unfold_none, amended_unfold_none]; ring_nf
  | some datca =>
    cases ot with
    | none => rw [predict_unfold_some_none, amended_unfold_some_none]; ring_nf
    | some t =>
      rw [predict_unfold_some_some, amended_unfold_some_some,
        show (72 * 3600 : ℝ) = 259200 by norm_num]
      ring_nf

/-! ## Discrete risk classifier (`model2_risk_classifier.py`) -/

/-- `classify_distance`: the distance-band rule. -/
noncomputable def classify_distance (distance : ℝ) : ℕ :=
  if 50 < distance then 0
  else if 20 < distance then 1
  else if 5 < distance then 2
  else 3

/-- Result record of `classify_risk_advanced`. -/
structure RiskClassification where
  risk_level : ℕ
  label : String
  color : String
  action : String
  deriving Repr, DecidableEq

/-- The `labels` dict of `classify_risk_advanced`, with `labels.get`'s
default value made explicit. -/
def labels_get (level : ℕ) (dflt : String × String × String) : String × String × String :=
  match level with
  | 0 => ("No Risk", "green", "Continue monitoring")
  | 1 => ("Low Risk", "yellow", "Increase monitoring frequency")
  | 2 => ("Medium Risk", "orange", "Prepare avoidance maneuver")
  | 3 => ("High Risk", "red", "Execute immediate avoidance maneuver")
  | _ => dflt

/-- `classify_risk_advanced` from `model2_risk_classifier.py`. -/
noncomputable def classify_risk_advanced (distance relative_velocity angle : ℝ) : RiskClassification :=
  let risk_level := classify_distance distance
  let lca := labels_get risk_level ("No Risk", "green", "Continue monitoring")
  if 10 < relative_velocity ∧ 150 < angle then
    let rl := min (risk_level + 1) 3
    let lca2 := labels_get rl ("High Risk", "red", "Execute immediate avoidance maneuver")
    ⟨rl, lca2.1, lca2.2.1, lca2.2.2⟩
  else
    ⟨risk_level, lca.1, lca.2.1, lca.2.2⟩

lemma labels_get_indep {level : ℕ} (h : level ≤ 3) (d1 d2 : String × String × String) :
    labels_get level d1 = labels_get level d2 := by
  interval_cases level <;> rfl

lemma classify_distance_le_three (d : ℝ) : classify_distance d ≤ 3 := by
  unfold classify_distance
  split_ifs <;> omega

lemma classify_risk_advanced_level (d s a : ℝ) :
    (classify_risk_advanced d s a).risk_level =
      if 10 < s ∧ 150 < a then min (classify_distance d + 1) 3 else classify_distance d := by
  unfold classify_risk_advanced
  split_ifs <;> rfl

/-- C3: the discrete classifier returns the level given by the distance bands
(0 for `d > 50`, 1 for `20 < d ≤ 50`, 2 for `5 < d ≤ 20`, 3 for `d ≤ 5`), and
escalates by one (capped at 3) exactly when `relative_speed > 10` and
`angle > 150`, with label/color/action re-derived from the escalated level. -/
theorem classify_risk_advanced_spec (d s a : ℝ) :
    ((50 < d → classify_distance d = 0) ∧
      (20 < d → d ≤ 50 → classify_distance d = 1) ∧
      (5 < d → d ≤ 20 → classify_distance d = 2) ∧
      (d ≤ 5 → classify_distance d = 3)) ∧
    (classify_risk_advanced d s a).risk_level =
      (if 10 < s ∧ 150 < a then min (classify_distance d + 1) 3 else classify_distance d) ∧
    ((classify_risk_advanced d s a).label, (classify_risk_advanced d s a).color,
        (classify_risk_advanced d s a).action) =
      labels_get (classify_risk_advanced d s a).risk_level
        ("No Risk", "green", "Continue monitoring") := by
  refine ⟨⟨?_, ?_, ?_, ?_⟩, classify_risk_advanced_level d s a, ?_⟩
  · intro h
    unfold classify_distance
    rw [if_pos h]
  · intro h1 h2
    unfold classify_distance
    rw [if_neg (by linarith), if_pos h1]
  · intro h1 h2
    unfold classify_distance
    rw [if_neg (by linarith), if_neg (by linarith), if_pos h1]
  · intro h
    unfold classify_distance
    rw [if_neg (by linarith), if_neg (by linarith), if_neg (by linarith)]
  · unfold classify_risk_advanced
    split_ifs with hc
    · dsimp only
      rw [labels_get_indep (min_le_right _ 3)
        ("High Risk", "red", "Execute immediate avoidance maneuver")
        ("No Risk", "green", "Continue monitoring")]
    · rfl

/-- Witness for C3 at `distance = 25`, `relative_velocity = 11`,
`angle = 160`: band level 1, escalated to 2. -/
theorem classify_risk_advanced_spec_witness :
    (classify_risk_advanced 25 11 160).risk_level = 2 := by
  have h := classify_risk_advanced_spec 25 11 160
  have hband : classify_distance 25 = 1 := h.1.2.1 (by norm_num) (by norm_num)
  have hesc := h.2.1
  rw [if_pos (⟨by norm_num, by norm_num⟩ : (10 : ℝ) < 11 ∧ (150 : ℝ) < 160), hband] at hesc
  simpa using hesc

/-- C9: for fixed speed and angle the returned risk level is weakly
non-increasing in distance, and the escalation path never returns less than
the distance-band level. -/
theorem classify_risk_advanced_monotone (s a d1 d2 : ℝ) (h : d1 ≤ d2) :
    (classify_risk_advanced d2 s a).risk_level ≤ (classify_risk_advanced d1 s a).risk_level ∧
      classify_distance d1 ≤ (classify_risk_advanced d1 s a).risk_level := by
  have hmono : classify_distance d2 ≤ classify_distance d1 := by
    unfold classify_distance
    split_ifs <;> first | omega | linarith
  constructor
  · rw [classify_risk_advanced_level, classify_risk_advanced_level]
    split_ifs with hc
    · omega
    · exact hmono
  · rw [classify_risk_advanced_level]
    split_ifs with hc
    · have := classify_distance_le_three d1
      omega
    · exact le_refl _

/-- Witness for C9 at `d1 = 10 ≤ d2 = 30`, speed 0, angle 0. -/
theorem classify_risk_advanced_monotone_witness :
    (classify_risk_advanced 30 0 0).risk_level ≤ (classify_risk_advanced 10 0 0).risk_level ∧
      classify_distance 10 ≤ (classify_risk_advanced 10 0 0).risk_level :=
  classify_risk_advanced_monotone 0 0 10 30 (by norm_num)

/-! ## Time of closest approach (`physics_utils.py`) -/

/-- `time_of_closest_approach`: linear-motion closest approach.  Returns
`(tca_seconds, distance_at_tca_km)`. -/
noncomputable def time_of_closest_approach (r1 v1 r2 v2 : Vec3) : ℝ × ℝ :=
  let r_rel0 := r2 - r1
  let v_rel := v2 - v1
  let v_rel_sq := dotv v_rel v_rel
  let tstar := if v_rel_sq < 1e-12 then (0 : ℝ) else -(dotv r_rel0 v_rel / v_rel_sq)
  (tstar, normv (r_rel0 + tstar • v_rel))

lemma dotv_expand_line (rr vv : Vec3) (t : ℝ) :
    dotv (rr + t • vv) (rr + t • vv) =
      dotv rr rr + 2 * t * dotv rr vv + t ^ 2 * dotv vv vv := by
  unfold dotv
  simp only [Pi.add_apply, Pi.smul_apply, smul_eq_mul]
  ring

/-- C5: with `|v_rel|² ≥ 1e-12`, a closing pair (`r·v < 0`) gets a strictly
positive `tca` and `distance_at_tca ≤` current distance; a receding pair
(`r·v > 0`) gets `tca ≤ 0`; the numerically stationary case returns
`tca = 0` and the current distance. -/
theorem time_of_closest_approach_spec (r1 v1 r2 v2 : Vec3) :
    (1e-12 ≤ dotv (v2 - v1) (v2 - v1) → dotv (r2 - r1) (v2 - v1) < 0 →
        0 < (time_of_closest_approach r1 v1 r2 v2).1 ∧
          (time_of_closest_approach r1 v1 r2 v2).2 ≤ normv (r2 - r1)) ∧
    (1e-12 ≤ dotv (v2 - v1) (v2 - v1) → 0 < dotv (r2 - r1) (v2 - v1) →
        (time_of_closest_approach r1 v1 r2 v2).1 ≤ 0) ∧
    (dotv (v2 - v1) (v2 - v1) < 1e-12 →
        (time_of_closest_approach r1 v1 r2 v2).1 = 0 ∧
          (time_of_closest_approach r1 v1 r2 v2).2 = normv (r2 - r1)) := by
  set rr := r2 - r1 with hrr
  set vv := v2 - v1 with hvv
  set q := dotv vv vv with hq
  set p := dotv rr vv with hp
  refine ⟨?_, ?_, ?_⟩
  · intro hql hpneg
    have hnotlt : ¬ q < 1e-12 := not_lt.mpr hql
    have hqpos : 0 < q := lt_of_lt_of_le (by norm_num) hql
    have ht : (time_of_closest_approach r1 v1 r2 v2).1 = -(p / q) := by
      show (if q < 1e-12 then (0 : ℝ) else -(p / q)) = -(p / q)
      rw [if_neg hnotlt]
    constructor
    · rw [ht]
      have : 0 < (-p) / q := div_pos (by linarith) hqpos
      rw [neg_div] at this
      linarith
    · show normv (rr + (if q < 1e-12 then (0 : ℝ) else -(p / q)) • vv) ≤ normv rr
      rw [if_neg hnotlt]
      unfold normv
      apply Real.sqrt_le_sqrt
      rw [dotv_expand_line]
      have hsq : 0 ≤ p ^ 2 / q := by positivity
      have hexpand : 2 * -(p / q) * p + (-(p / q)) ^ 2 * q = -(p ^ 2 / q) := by
        field_simp
        ring
      nlinarith [hexpand]
  · intro hql hppos
    have hnotlt : ¬ q < 1e-12 := not_lt.mpr hql
    have hqpos : 0 < q := lt_of_lt_of_le (by norm_num) hql
    show (if q < 1e-12 then (0 : ℝ) else -(p / q)) ≤ 0
    rw [if_neg hnotlt]
    have : 0 < p / q := div_pos hppos hqpos
    linarith
  · intro hqlt
    constructor
    · show (if q < 1e-12 then (0 : ℝ) else -(p / q)) = 0
      rw [if_pos hqlt]
    · show normv (rr + (if q < 1e-12 then (0 : ℝ) else -(p / q)) • vv) = normv rr
      rw [if_pos hqlt, zero_smul, add_zero]

/-- Witness for C5: subject at rest at the origin, object at `(10,0,0)`
closing with velocity `(-1,0,0)`. -/
theorem time_of_closest_approach_spec_witness :
    0 < (time_of_closest_approach (mkVec 0 0 0) (mkVec 0 0 0)
          (mkVec 10 0 0) (mkVec (-1) 0 0)).1 ∧
      (time_of_closest_approach (mkVec 0 0 0) (mkVec 0 0 0)
          (mkVec 10 0 0) (mkVec (-1) 0 0)).2
        ≤ normv (mkVec 10 0 0 - mkVec 0 0 0) := by
  apply (time_of_closest_approach_spec (mkVec 0 0 0) (mkVec 0 0 0)
    (mkVec 10 0 0) (mkVec (-1) 0 0)).1
  · norm_num [dotv, mkVec, Pi.sub_apply]
  · norm_num [dotv, mkVec, Pi.sub_apply]

/-! ## Simple avoidance maneuver (`rl_maneuver_agent.suggest_maneuver_simple`) -/

/-- The perpendicular-direction fallback chain of `suggest_maneuver_simple`. -/
noncomputable def maneuver_perp (r_rel0 v_rel : Vec3) : Vec3 :=
  if normv v_rel < 1e-6 then
    (if normv (cross r_rel0 (mkVec 0 0 1)) < 1e-6 then mkVec 1 0 0
     else cross r_rel0 (mkVec 0 0 1))
  else
    (if normv (cross v_rel r_rel0) < 1e-6 then
      (if normv (cross v_rel (mkVec 0 0 1)) < 1e-6 then mkVec 1 0 0
       else cross v_rel (mkVec 0 0 1))
     else cross v_rel r_rel0)

/-- The severity scaling of `suggest_maneuver_simple`. -/
noncomputable def maneuver_severity (dist_at_tca : ℝ) : ℝ :=
  if dist_at_tca ≤ 1 then 1 else max 0 (min 1 ((50 - dist_at_tca) / 50))

/-- The Δv vector built by `suggest_maneuver_simple`:
`perp_dir*dv_mag*0.9 + along_vrel*dv_mag*0.1`. -/
noncomputable def maneuver_dv_vector (r_rel0 v_rel : Vec3) (dv_mag : ℝ) : Vec3 :=
  (dv_mag * 0.9) • unitv (maneuver_perp r_rel0 v_rel) +
    (dv_mag * 0.1) • (if 1e-6 < normv v_rel then -unitv v_rel else fun _ => (0 : ℝ))

/-- Result record of `suggest_maneuver_simple` (numeric fields). -/
structure SimpleManeuver where
  delta_vx : ℝ
  delta_vy : ℝ
  delta_vz : ℝ
  total_delta_v : ℝ
  expected_increase_in_miss_km : ℝ
  confidence : ℝ

/-- `suggest_maneuver_simple` from `rl_maneuver_agent.py`. -/
noncomputable def suggest_maneuver_simple (r1 v1 r2 v2 : Vec3) : SimpleManeuver :=
  let tca := (time_of_closest_approach r1 v1 r2 v2).1
  let dist_at_tca := (time_of_closest_approach r1 v1 r2 v2).2
  let r_rel0 := r2 - r1
  let v_rel := v2 - v1
  let severity := maneuver_severity dist_at_tca
  let dv_mag := 0.0005 + severity * 0.0495
  let dv_vector := maneuver_dv_vector r_rel0 v_rel dv_mag
  { delta_vx := dv_vector 0
    delta_vy := dv_vector 1
    delta_vz := dv_vector 2
    total_delta_v := normv dv_vector
    expected_increase_in_miss_km :=
      if 0 ≤ tca then normv dv_vector * max tca 1 else normv dv_vector * 3600
    confidence := max 0.4 (min 0.98 (0.6 + severity * 0.35)) }

lemma normv_zero_vec : normv (fun _ => (0 : ℝ)) = 0 := by
  have h : dotv (fun _ => (0 : ℝ)) (fun _ => (0 : ℝ)) = 0 := by
    unfold dotv
    norm_num
  unfold normv
  rw [h, Real.sqrt_zero]

lemma normv_neg (v : Vec3) : normv (-v) = normv v := by
  unfold normv
  have h : dotv (-v) (-v) = dotv v v := by
    unfold dotv
    simp only [Pi.neg_apply]
    ring
  rw [h]

lemma normv_e1 : normv (mkVec 1 0 0) = 1 := by
  have h : dotv (mkVec 1 0 0) (mkVec 1 0 0) = 1 := by
    unfold dotv mkVec
    norm_num
  unfold normv
  rw [h, Real.sqrt_one]

lemma maneuver_perp_norm_ne (r_rel0 v_rel : Vec3) :
    normv (maneuver_perp r_rel0 v_rel) ≠ 0 := by
  unfold maneuver_perp
  split_ifs with h1 h2 h3 h4
  · rw [normv_e1]; norm_num
  · intro hz; exact h2 (by rw [hz]; norm_num)
  · rw [normv_e1]; norm_num
  · intro hz; exact h4 (by rw [hz]; norm_num)
  · intro hz; exact h3 (by rw [hz]; norm_num)

lemma maneuver_severity_nonneg (x : ℝ) : 0 ≤ maneuver_severity x := by
  unfold maneuver_severity
  split_ifs
  · norm_num
  · exact le_max_left _ _

lemma maneuver_dv_vector_norm_pos (r_rel0 v_rel : Vec3) (m : ℝ) (hm : 0 < m) :
    0 < normv (maneuver_dv_vector r_rel0 v_rel m) := by
  unfold maneuver_dv_vector
  have hperp : normv (unitv (maneuver_perp r_rel0 v_rel)) = 1 :=
    normv_unitv _ (maneuver_perp_norm_ne r_rel0 v_rel)
  have halong : normv (if 1e-6 < normv v_rel then -unitv v_rel else fun _ => (0 : ℝ)) ≤ 1 := by
    split_ifs with h
    · have hne : normv v_rel ≠ 0 := by
        intro hz
        rw [hz] at h
        norm_num at h
      rw [normv_neg, normv_unitv _ hne]
    · rw [normv_zero_vec]
      norm_num
  have h1 : normv ((m * 0.9) • unitv (maneuver_perp r_rel0 v_rel)) = m * 0.9 := by
    rw [normv_smul, hperp, abs_of_pos (by linarith), mul_one]
  have h2 : normv ((m * 0.1) •
      (if 1e-6 < normv v_rel then -unitv v_rel else fun _ => (0 : ℝ))) ≤ m * 0.1 := by
    rw [normv_smul, abs_of_pos (by linarith)]
    nlinarith [normv_nonneg (if 1e-6 < normv v_rel then -unitv v_rel else fun _ => (0 : ℝ))]
  have h3 := normv_add_ge ((m * 0.9) • unitv (maneuver_perp r_rel0 v_rel))
    ((m * 0.1) • (if 1e-6 < normv v_rel then -unitv v_rel else fun _ => (0 : ℝ)))
  linarith

/-- C7: for every pair of six-component states (all degenerate cases
included) the Δv returned by `suggest_maneuver_simple` has strictly positive
magnitude and a non-zero direction vector. -/
theorem suggest_maneuver_simple_delta_v_pos (r1 v1 r2 v2 : Vec3) :
    0 < (suggest_maneuver_simple r1 v1 r2 v2).total_delta_v ∧
      ¬((suggest_maneuver_simple r1 v1 r2 v2).delta_vx = 0 ∧
        (suggest_maneuver_simple r1 v1 r2 v2).delta_vy = 0 ∧
        (suggest_maneuver_simple r1 v1 r2 v2).delta_vz = 0) := by
  have hm : 0 < 0.0005 + maneuver_severity (time_of_closest_approach r1 v1 r2 v2).2 * 0.0495 := by
    have := maneuver_severity_nonneg (time_of_closest_approach r1 v1 r2 v2).2
    nlinarith
  have hpos : 0 < normv (maneuver_dv_vector (r2 - r1) (v2 - v1)
      (0.0005 + maneuver_severity (time_of_closest_approach r1 v1 r2 v2).2 * 0.0495)) :=
    maneuver_dv_vector_norm_pos _ _ _ hm
  refine ⟨hpos, ?_⟩
  rintro ⟨h0, h1, h2⟩
  have hdv : dotv (maneuver_dv_vector (r2 - r1) (v2 - v1)
      (0.0005 + maneuver_severity (time_of_closest_approach r1 v1 r2 v2).2 * 0.0495))
      (maneuver_dv_vector (r2 - r1) (v2 - v1)
      (0.0005 + maneuver_severity (time_of_closest_approach r1 v1 r2 v2).2 * 0.0495)) = 0 := by
    unfold dotv
    have e0 : maneuver_dv_vector (r2 - r1) (v2 - v1)
        (0.0005 + maneuver_severity (time_of_closest_approach r1 v1 r2 v2).2 * 0.0495) 0 = 0 := h0
    have e1 : maneuver_dv_vector (r2 - r1) (v2 - v1)
        (0.0005 + maneuver_severity (time_of_closest_approach r1 v1 r2 v2).2 * 0.0495) 1 = 0 := h1
    have e2 : maneuver_dv_vector (r2 - r1) (v2 - v1)
        (0.0005 + maneuver_severity (time_of_closest_approach r1 v1 r2 v2).2 * 0.0495) 2 = 0 := h2
    rw [e0, e1, e2]
    ring
  have : normv (maneuver_dv_vector (r2 - r1) (v2 - v1)
      (0.0005 + maneuver_severity (time_of_closest_approach r1 v1 r2 v2).2 * 0.0495)) = 0 := by
    unfold normv
    rw [hdv, Real.sqrt_zero]
  linarith

/-! ## Rounding (Python `round(x, ndigits)`, banker's rounding) -/

/-- Python 3 `round` to an integer: round half to even. -/
noncomputable def roundHalfEven (x : ℝ) : ℤ :=
  if x - ⌊x⌋ < 1 / 2 then ⌊x⌋
  else if 1 / 2 < x - ⌊x⌋ then ⌊x⌋ + 1
  else if ⌊x⌋ % 2 = 0 then ⌊x⌋ else ⌊x⌋ + 1

/-- Python `round(x, 2)`. -/
noncomputable def round2 (x : ℝ) : ℝ := (roundHalfEven (x * 100) : ℝ) / 100

/-- Python `round(x, 3)`. -/
noncomputable def round3 (x : ℝ) : ℝ := (roundHalfEven (x * 1000) : ℝ) / 1000

lemma roundHalfEven_floor_le (x : ℝ) : ⌊x⌋ ≤ roundHalfEven x := by
  unfold roundHalfEven
  split_ifs <;> omega

/-- Rounding an integer plus a fraction `a/q ∈ [0,1)` (with `2a ≠ q`, so the
half-way tie never occurs) adds `1` exactly when the fraction exceeds a half. -/
lemma roundHalfEven_int_add_div (b a q : ℤ) (hq : 0 < q) (ha0 : 0 ≤ a) (haq : a < q)
    (hne : 2 * a ≠ q) :
    roundHalfEven (((q * b + a : ℤ) : ℝ) / (q : ℝ)) = b + (if q < 2 * a then 1 else 0) := by
  have hqR : (0 : ℝ) < (q : ℝ) := by exact_mod_cast hq
  have hx : ((q * b + a : ℤ) : ℝ) / (q : ℝ) = (b : ℝ) + (a : ℝ) / (q : ℝ) := by
    push_cast
    field_simp
    ring
  have hfrac0 : 0 ≤ (a : ℝ) / (q : ℝ) := by positivity
  have hfrac1 : (a : ℝ) / (q : ℝ) < 1 := by
    rw [div_lt_one hqR]
    exact_mod_cast haq
  have hfl : ⌊((q * b + a : ℤ) : ℝ) / (q : ℝ)⌋ = b := by
    rw [hx, add_comm, Int.floor_add_int,
      Int.floor_eq_zero_iff.mpr (Set.mem_Ico.mpr ⟨hfrac0, hfrac1⟩)]
    ring
  unfold roundHalfEven
  rw [hfl, hx, add_sub_cancel_left]
  rcases lt_trichotomy (2 * a) q with h | h | h
  · have hlt : (a : ℝ) / (q : ℝ) < 1 / 2 := by
      rw [div_lt_iff₀ hqR]
      have : (2 : ℝ) * a < q := by exact_mod_cast h
      linarith
    rw [if_pos hlt, if_neg (by omega : ¬ q < 2 * a)]
    ring
  · exact absurd h hne
  · have hgt : 1 / 2 < (a : ℝ) / (q : ℝ) := by
      rw [lt_div_iff₀ hqR]
      have : (q : ℝ) < 2 * a := by exact_mod_cast h
      linarith
    rw [if_neg (by linarith), if_pos hgt, if_pos h]

lemma geom_two_sum_int (n : ℕ) : ∑ k in Finset.range n, (2 : ℤ) ^ k = 2 ^ n - 1 := by
  induction n with
  | zero => simp
  | succ m ih =>
    rw [Finset.sum_range_succ, ih]
    ring

/-- The doubling-map cancellation: rounding the geometric shares
`M·2^k/(2^n−1)` to integers and summing gives back `M` exactly. -/
lemma roundHalfEven_geom_sum (n : ℕ) (hn : 1 ≤ n) (M : ℤ) :
    (∑ k in Finset.range n,
        roundHalfEven (((M * 2 ^ k : ℤ) : ℝ) / (((2 : ℤ) ^ n - 1 : ℤ) : ℝ))) = M := by
  set q : ℤ := 2 ^ n - 1 with hqdef
  have h2n : (2 : ℤ) ^ 1 ≤ 2 ^ n := pow_le_pow_right₀ (by norm_num) hn
  have hq : 0 < q := by
    rw [hqdef]
    norm_num at h2n ⊢
    omega
  have hqodd : ∃ c : ℤ, q = 2 * c - 1 := by
    obtain ⟨c, hc⟩ : (2 : ℤ) ∣ 2 ^ n := dvd_pow_self 2 (by omega)
    exact ⟨c, by rw [hqdef, hc]⟩
  set a : ℕ → ℤ := fun k => (M * 2 ^ k) % q with hadef
  set b : ℕ → ℤ := fun k => (M * 2 ^ k) / q with hbdef
  have f1 : ∀ k, M * 2 ^ k = q * b k + a k := fun k => (Int.ediv_add_emod _ _).symm
  have f2 : ∀ k, 0 ≤ a k := fun k => Int.emod_nonneg _ (ne_of_gt hq)
  have f3 : ∀ k, a k < q := fun k => Int.emod_lt_of_pos _ hq
  have f4 : ∀ k, 2 * a k ≠ q := by
    intro k h
    obtain ⟨c, hc⟩ := hqodd
    omega
  have step1 : ∀ k, roundHalfEven (((M * 2 ^ k : ℤ) : ℝ) / (q : ℝ))
      = b k + (if q < 2 * a k then 1 else 0) := by
    intro k
    have h := roundHalfEven_int_add_div (b k) (a k) q hq (f2 k) (f3 k) (f4 k)
    rw [show q * b k + a k = M * 2 ^ k from (f1 k).symm] at h
    exact h
  rw [Finset.sum_congr rfl fun k _ => step1 k, Finset.sum_add_distrib]
  set N : ℤ := ∑ k in Finset.range n, (if q < 2 * a k then (1 : ℤ) else 0) with hNdef
  have recur : ∀ k, a (k + 1) = 2 * a k - q * (if q < 2 * a k then 1 else 0) := by
    intro k
    have h1 : a (k + 1) = (2 * (M * 2 ^ k)) % q := by
      rw [hadef]
      ring_nf
    have h2 : (2 * (M * 2 ^ k)) % q = (2 * a k) % q := by
      rw [Int.mul_emod 2 (M * 2 ^ k) q, hadef]
      conv_rhs => rw [Int.mul_emod 2 ((M * 2 ^ k) % q) q, Int.emod_emod_of_dvd _ dvd_rfl]
    rw [h1, h2]
    split_ifs with hgt
    · have hlt2 : 2 * a k - q < q := by
        have := f3 k
        omega
      have h3 : (2 * a k) % q = (2 * a k - q) % q := by
        conv_lhs => rw [show 2 * a k = (2 * a k - q) + 1 * q by ring, Int.add_mul_emod_self]
      rw [h3, Int.emod_eq_of_lt (by omega) hlt2]
      ring
    · have hlt : 2 * a k < q := by
        have := f4 k
        omega
      rw [Int.emod_eq_of_lt (by linarith [f2 k]) hlt]
      ring
  have aper : a n = a 0 := by
    have h2nq : (2 : ℤ) ^ n = q + 1 := by
      rw [hqdef]
      ring
    have ha0 : a 0 = M % q := by
      rw [hadef]
      norm_num
    rw [hadef]
    calc (M * 2 ^ n) % q = (M + M * q) % q := by rw [h2nq]; ring_nf
      _ = M % q := Int.add_mul_emod_self
      _ = a 0 := ha0.symm
  have sum_shift : ∑ k in Finset.range n, a (k + 1) = ∑ k in Finset.range n, a k := by
    have hs1 := Finset.sum_range_succ' a n
    have hs2 := Finset.sum_range_succ a n
    rw [hs2] at hs1
    omega
  have sum_recur : ∑ k in Finset.range n, a (k + 1)
      = 2 * (∑ k in Finset.range n, a k) - q * N := by
    rw [Finset.sum_congr rfl fun k _ => recur k, Finset.sum_sub_distrib,
      ← Finset.mul_sum, ← Finset.mul_sum, hNdef]
  have sumA : ∑ k in Finset.range n, a k = q * N := by
    rw [sum_shift] at sum_recur
    omega
  have sum_div : q * ((∑ k in Finset.range n, b k) + N) = q * M := by
    have h := Finset.sum_congr rfl fun (k : ℕ) (_ : k ∈ Finset.range n) => f1 k
    rw [Finset.sum_add_distrib, ← Finset.mul_sum, sumA, ← Finset.mul_sum,
      geom_two_sum_int, ← hqdef] at h
    rw [mul_add, ← h]
    ring
  have := mul_left_cancel₀ (ne_of_gt hq) sum_div
  omega

/-! ## Maneuver planning (`rl_maneuver_agent.py`, new interface) -/

/-- Maneuver plan record (`delta_v_mps`, `direction_vector`,
`burn_duration_s`, `fuel_cost_kg`, `safety_margin_km`). -/
structure Maneuver where
  delta_v_mps : ℝ
  direction_vector : ℝ × ℝ × ℝ
  burn_duration_s : ℝ
  fuel_cost_kg : ℝ
  safety_margin_km : ℝ

/-- `suggest_maneuver_legacy`: fixed-ISP single-burn estimate. -/
noncomputable def suggest_maneuver_legacy (distance relative_velocity angle urgency : ℝ) :
    Maneuver :=
  let base_dv : ℝ := 15
  let urgency_factor := 1 + urgency * 2.5
  let delta_v := base_dv * urgency_factor
  let altitude_estimate : ℝ := 400
  let direction : ℝ × ℝ × ℝ := if altitude_estimate < 600 then (0.707, 0.707, 0) else (0, 1, 0)
  let burn_duration := delta_v / 10
  let isp : ℝ := 300
  let g0 : ℝ := 9.81
  let fuel_cost := 1000 * (1 - Real.exp (-delta_v / (isp * g0)))
  let safety_margin := delta_v * 0.1
  { delta_v_mps := round2 delta_v
    direction_vector := direction
    burn_duration_s := round2 burn_duration
    fuel_cost_kg := round3 fuel_cost
    safety_margin_km := round2 safety_margin }

/-- `_compute_basic_maneuver`: urgency from `threat_distance_km`, synthetic
relative velocity from the `velocity` components, fixed 45° angle. -/
noncomputable def compute_basic_maneuver (threat_distance_km vx vy vz : ℝ) : Maneuver :=
  let distance := threat_distance_km
  let urgency := max 0 (min 1 ((15 - distance) / 15))
  let rel_vel_mag := Real.sqrt (vx ^ 2 + vy ^ 2 + vz ^ 2) / 10
  let angle : ℝ := 45
  suggest_maneuver_legacy distance rel_vel_mag angle urgency

/-- `suggest_maneuver`: public single-burn interface. -/
noncomputable def suggest_maneuver (threat_distance_km vx vy vz : ℝ) : Maneuver :=
  compute_basic_maneuver threat_distance_km vx vy vz

/-- `suggest_multi_burn_maneuver`: split the baseline Δv across `num_burns`
burns with geometric factors `0.5^i`, scaling duration/fuel/margin by the
Δv share. -/
noncomputable def suggest_multi_burn_maneuver (threat_distance_km vx vy vz : ℝ)
    (num_burns : ℕ) : List Maneuver :=
  let base := compute_basic_maneuver threat_distance_km vx vy vz
  let total_dv := base.delta_v_mps
  let factors := (List.range num_burns).map fun i => (0.5 : ℝ) ^ i
  let scale := total_dv / factors.sum
  (List.range num_burns).map fun i =>
    let dv := (0.5 : ℝ) ^ i * scale
    { delta_v_mps := round2 dv
      direction_vector := base.direction_vector
      burn_duration_s := round2 (base.burn_duration_s * (dv / total_dv))
      fuel_cost_kg := round3 (base.fuel_cost_kg * (dv / total_dv))
      safety_margin_km := round2 (base.safety_margin_km * (dv / total_dv)) }

lemma list_range_map_sum (n : ℕ) (f : ℕ → ℝ) :
    (((List.range n).map f).sum) = ∑ i in Finset.range n, f i := by
  induction n with
  | zero => simp
  | succ m ih =>
    rw [List.range_succ, List.map_append, List.sum_append, Finset.sum_range_succ, ih]
    simp

lemma half_pow_sum (n : ℕ) (hn : 1 ≤ n) :
    ∑ j in Finset.range n, (0.5 : ℝ) ^ j = ((2 : ℝ) ^ n - 1) / 2 ^ (n - 1) := by
  have h2 : ((0.5 : ℝ)) = 2⁻¹ := by norm_num
  have hne : (0.5 : ℝ) ≠ 1 := by norm_num
  rw [geom_sum_eq hne]
  have hpow : (2 : ℝ) ^ n = 2 * 2 ^ (n - 1) := by
    conv_lhs => rw [show n = (n - 1) + 1 by omega]
    rw [pow_succ]
    ring
  rw [h2, inv_pow]
  have h2n : (2 : ℝ) ^ n ≠ 0 := by positivity
  have h2n1 : (2 : ℝ) ^ (n - 1) ≠ 0 := by positivity
  field_simp
  rw [hpow]
  ring

/-- C6: the `delta_v_mps` values of the `n ≥ 1` burns of
`suggest_multi_burn_maneuver` sum *exactly* to the single-burn baseline
`delta_v_mps` of `suggest_maneuver` (hence well within 1e-6 relative
tolerance); the split uses normalized geometric weights `0.5^i`, and each
burn's direction, duration, fuel cost and safety margin are the baseline
values scaled by the burn's Δv share. -/
theorem suggest_multi_burn_dv_sum (t vx vy vz : ℝ) (n : ℕ) (hn : 1 ≤ n) :
    ((suggest_multi_burn_maneuver t vx vy vz n).map Maneuver.delta_v_mps).sum
        = (suggest_maneuver t vx vy vz).delta_v_mps ∧
      |((suggest_multi_burn_maneuver t vx vy vz n).map Maneuver.delta_v_mps).sum
          - (suggest_maneuver t vx vy vz).delta_v_mps|
        ≤ 1e-6 * (suggest_maneuver t vx vy vz).delta_v_mps ∧
      (suggest_multi_burn_maneuver t vx vy vz n).length = n ∧
      ∀ m ∈ suggest_multi_burn_maneuver t vx vy vz n, ∃ i, i < n ∧
        m.delta_v_mps = round2 ((0.5 : ℝ) ^ i *
            ((suggest_maneuver t vx vy vz).delta_v_mps /
              ∑ j in Finset.range n, (0.5 : ℝ) ^ j)) ∧
        m.direction_vector = (suggest_maneuver t vx vy vz).direction_vector ∧
        m.burn_duration_s = round2 ((suggest_maneuver t vx vy vz).burn_duration_s *
            ((0.5 : ℝ) ^ i * ((suggest_maneuver t vx vy vz).delta_v_mps /
                ∑ j in Finset.range n, (0.5 : ℝ) ^ j) /
              (suggest_maneuver t vx vy vz).delta_v_mps)) ∧
        m.fuel_cost_kg = round3 ((suggest_maneuver t vx vy vz).fuel_cost_kg *
            ((0.5 : ℝ) ^ i * ((suggest_maneuver t vx vy vz).delta_v_mps /
                ∑ j in Finset.range n, (0.5 : ℝ) ^ j) /
              (suggest_maneuver t vx vy vz).delta_v_mps)) ∧
        m.safety_margin_km = round2 ((suggest_maneuver t vx vy vz).safety_margin_km *
            ((0.5 : ℝ) ^ i * ((suggest_maneuver t vx vy vz).delta_v_mps /
                ∑ j in Finset.range n, (0.5 : ℝ) ^ j) /
              (suggest_maneuver t vx vy vz).delta_v_mps)) := by
  set u : ℝ := max 0 (min 1 ((15 - t) / 15)) with hu
  set raw : ℝ := 15 * (1 + u * 2.5) with hraw
  set M : ℤ := roundHalfEven (raw * 100) with hM
  have hDval : (suggest_maneuver t vx vy vz).delta_v_mps = (M : ℝ) / 100 := rfl
  have hSlist : ((List.range n).map fun j => (0.5 : ℝ) ^ j).sum
      = ∑ j in Finset.range n, (0.5 : ℝ) ^ j := list_range_map_sum n _
  have hSval : ∑ j in Finset.range n, (0.5 : ℝ) ^ j = ((2 : ℝ) ^ n - 1) / 2 ^ (n - 1) :=
    half_pow_sum n hn
  have hM1500 : (1500 : ℤ) ≤ M := by
    have hu0 : (0 : ℝ) ≤ u := le_max_left _ _
    have h1 : (1500 : ℝ) ≤ raw * 100 := by
      rw [hraw]
      nlinarith
    have h2 : (1500 : ℤ) ≤ ⌊raw * 100⌋ := Int.le_floor.mpr (by exact_mod_cast h1)
    have h3 := roundHalfEven_floor_le (raw * 100)
    omega
  have h2pow : (2 : ℝ) ≤ 2 ^ n := by
    have := pow_le_pow_right₀ (by norm_num : (1 : ℝ) ≤ 2) hn
    simpa using this
  have hqRne : ((2 : ℝ) ^ n - 1) ≠ 0 := by linarith
  have hmap : (suggest_multi_burn_maneuver t vx vy vz n).map Maneuver.delta_v_mps
      = (List.range n).map fun i => round2 ((0.5 : ℝ) ^ i *
          ((M : ℝ) / 100 / (((List.range n).map fun j => (0.5 : ℝ) ^ j).sum))) := by
    show ((List.range n).map _).map _ = _
    rw [List.map_map]
    rfl
  have harg : ∀ i ∈ Finset.range n, round2 ((0.5 : ℝ) ^ i *
        ((M : ℝ) / 100 / (((List.range n).map fun j => (0.5 : ℝ) ^ j).sum)))
      = (roundHalfEven (((M * 2 ^ (n - 1 - i) : ℤ) : ℝ) / (((2 : ℤ) ^ n - 1 : ℤ) : ℝ)) : ℝ)
          / 100 := by
    intro i hi
    have hin : i < n := Finset.mem_range.mp hi
    have hpowmul : (2 : ℝ) ^ (n - 1 - i) * 2 ^ i = 2 ^ (n - 1) := by
      rw [← pow_add]
      congr 1
      omega
    have hpowdiv : (2 : ℝ) ^ (n - 1 - i) = 2 ^ (n - 1) / 2 ^ i := by
      rw [eq_div_iff (by positivity : (2 : ℝ) ^ i ≠ 0)]
      exact hpowmul
    have hx : ((0.5 : ℝ) ^ i *
          ((M : ℝ) / 100 / (((List.range n).map fun j => (0.5 : ℝ) ^ j).sum))) * 100
        = ((M * 2 ^ (n - 1 - i) : ℤ) : ℝ) / (((2 : ℤ) ^ n - 1 : ℤ) : ℝ) := by
      rw [hSlist, hSval]
      push_cast
      rw [show (0.5 : ℝ) = 2⁻¹ by norm_num, inv_pow, hpowdiv]
      have h2i : (2 : ℝ) ^ i ≠ 0 := by positivity
      have h2n1 : (2 : ℝ) ^ (n - 1) ≠ 0 := by positivity
      field_simp
      ring
    unfold round2
    rw [hx]
  have hsum : ((suggest_multi_burn_maneuver t vx vy vz n).map Maneuver.delta_v_mps).sum
      = (suggest_maneuver t vx vy vz).delta_v_mps := by
    rw [hmap, list_range_map_sum, Finset.sum_congr rfl harg, ← Finset.sum_div]
    have hcast : (∑ i in Finset.range n,
          ((roundHalfEven (((M * 2 ^ (n - 1 - i) : ℤ) : ℝ) / (((2 : ℤ) ^ n - 1 : ℤ) : ℝ))) : ℝ))
        = ((∑ i in Finset.range n,
            roundHalfEven (((M * 2 ^ (n - 1 - i) : ℤ) : ℝ) / (((2 : ℤ) ^ n - 1 : ℤ) : ℝ)) : ℤ) : ℝ) := by
      push_cast
      rfl
    have hreflect : (∑ i in Finset.range n,
          roundHalfEven (((M * 2 ^ (n - 1 - i) : ℤ) : ℝ) / (((2 : ℤ) ^ n - 1 : ℤ) : ℝ)))
        = ∑ k in Finset.range n,
            roundHalfEven (((M * 2 ^ k : ℤ) : ℝ) / (((2 : ℤ) ^ n - 1 : ℤ) : ℝ)) :=
      Finset.sum_range_reflect
        (fun k => roundHalfEven (((M * 2 ^ k : ℤ) : ℝ) / (((2 : ℤ) ^ n - 1 : ℤ) : ℝ))) n
    rw [hcast, hreflect, roundHalfEven_geom_sum n hn M, hDval]
  refine ⟨hsum, ?_, ?_, ?_⟩
  · rw [hsum, sub_self, abs_zero, hDval]
    have : (1500 : ℝ) ≤ (M : ℝ) := by exact_mod_cast hM1500
    nlinarith
  · show ((List.range n).map _).length = n
    rw [List.length_map, List.length_range]
  · intro m hm
    obtain ⟨i, hi, rfl⟩ := List.mem_map.mp hm
    refine ⟨i, List.mem_range.mp hi, ?_, rfl, ?_, ?_, ?_⟩
    · rw [← hSlist]
      rfl
    · rw [← hSlist]
      rfl
    · rw [← hSlist]
      rfl
    · rw [← hSlist]
      rfl

/-- Witness for C6 at `threat_distance_km = 10`, velocity `(7.5, 0, 0)`,
three burns. -/
theorem suggest_multi_burn_dv_sum_witness :
    ((suggest_multi_burn_maneuver 10 7.5 0 0 3).map Maneuver.delta_v_mps).sum
      = (suggest_maneuver 10 7.5 0 0).delta_v_mps :=
  (suggest_multi_burn_dv_sum 10 7.5 0 0 3 (by norm_num)).1

/-! ## Conjunction-event ranking (`collision_service.py`) -/

/-- The fields of a conjunction event relevant to ranking. -/
structure CollisionEvent where
  risk_level : ℕ
  probability : ℚ
  deriving Repr, DecidableEq

/-- One step of a stable descending insertion by `risk_level`: the new
element (which comes *earlier* in the scan order) is placed before every
element whose level does not exceed its own. -/
def insertByRiskDesc (e : CollisionEvent) : List CollisionEvent → List CollisionEvent
  | [] => [e]
  | x :: xs => if x.risk_level ≤ e.risk_level then e :: x :: xs else x :: insertByRiskDesc e xs

/-- The `collision_events.sort(key=lambda x: x["risk_level"], reverse=True)`
step of `calculate_collision_risks`: a stable sort on the single key
`risk_level`, descending (Python's `list.sort` is stable; any stable sort by
the same key produces the same list). -/
def sortEventsByRiskDesc : List CollisionEvent → List CollisionEvent
  | [] => []
  | x :: xs => insertByRiskDesc x (sortEventsByRiskDesc xs)

/-- The ranking the claim asserts: `risk_level` descending with
`probability` descending as tiebreaker. -/
def SortedByRiskThenProb (l : List CollisionEvent) : Prop :=
  List.Pairwise (fun a b => b.risk_level < a.risk_level ∨
    (a.risk_level = b.risk_level ∧ b.probability ≤ a.probability)) l

lemma mem_insertByRiskDesc {e x : CollisionEvent} {l : List CollisionEvent} :
    x ∈ insertByRiskDesc e l ↔ x = e ∨ x ∈ l := by
  induction l with
  | nil => simp [insertByRiskDesc]
  | cons y ys ih =>
    unfold insertByRiskDesc
    split_ifs with h
    · simp only [List.mem_cons]
    · simp only [List.mem_cons, ih]
      tauto

lemma pairwise_insertByRiskDesc {e : CollisionEvent} {l : List CollisionEvent}
    (h : List.Pairwise (fun a b => b.risk_level ≤ a.risk_level) l) :
    List.Pairwise (fun a b => b.risk_level ≤ a.risk_level) (insertByRiskDesc e l) := by
  induction l with
  | nil => simp [insertByRiskDesc]
  | cons y ys ih =>
    rw [List.pairwise_cons] at h
    unfold insertByRiskDesc
    split_ifs with hle
    · rw [List.pairwise_cons]
      constructor
      · intro b hb
        rcases List.mem_cons.mp hb with rfl | hb
        · exact hle
        · exact le_trans (h.1 b hb) hle
      · rw [List.pairwise_cons]
        exact h
    · rw [List.pairwise_cons]
      constructor
      · intro b hb
        rcases mem_insertByRiskDesc.mp hb with rfl | hb
        · exact le_of_not_le hle
        · exact h.1 b hb
      · exact ih h.2

/-- C4 (amended, part 1): the scan's sort step orders events by
`risk_level` descending. -/
lemma sortEventsByRiskDesc_pairwise (l : List CollisionEvent) :
    List.Pairwise (fun a b => b.risk_level ≤ a.risk_level) (sortEventsByRiskDesc l) := by
  induction l with
  | nil => simp [sortEventsByRiskDesc]
  | cons x xs ih => exact pairwise_insertByRiskDesc ih

lemma filter_level_insertByRiskDesc (k : ℕ) (e : CollisionEvent) (l : List CollisionEvent) :
    (insertByRiskDesc e l).filter (fun x => decide (x.risk_level = k)) =
      if e.risk_level = k then
        e :: l.filter (fun x => decide (x.risk_level = k))
      else l.filter (fun x => decide (x.risk_level = k)) := by
  induction l with
  | nil =>
    unfold insertByRiskDesc
    split_ifs with hek
    · simp [List.filter_cons, hek]
    · simp [List.filter_cons, hek]
  | cons y ys ih =>
    unfold insertByRiskDesc
    split_ifs with hle hek hek
    · rw [List.filter_cons, List.filter_cons]
      simp [hek]
    · rw [List.filter_cons]
      simp [hek]
    · have hyk : y.risk_level ≠ k := by omega
      rw [List.filter_cons, List.filter_cons]
      simp [hyk, ih, hek]
    · rw [List.filter_cons, List.filter_cons, ih, if_neg hek]

/-- C4 (amended, part 2): the sort is stable, so within a fixed
`risk_level` the original scan order — not the probability order — is kept. -/
lemma sortEventsByRiskDesc_stable (l : List CollisionEvent) (k : ℕ) :
    (sortEventsByRiskDesc l).filter (fun x => decide (x.risk_level = k)) =
      l.filter (fun x => decide (x.risk_level = k)) := by
  induction l with
  | nil => rfl
  | cons x xs ih =>
    show (insertByRiskDesc x (sortEventsByRiskDesc xs)).filter _ = _
    rw [filter_level_insertByRiskDesc, List.filter_cons, ih]
    simp only [decide_eq_true_eq]

/-- C4 (counterexample): two events of equal `risk_level` arriving with
increasing probability stay in scan order — the sort key is `risk_level`
alone, so the claimed probability-descending tiebreak fails. -/
theorem sort_prob_tiebreak_counterexample :
    ¬ SortedByRiskThenProb (sortEventsByRiskDesc
      [⟨2, 1 / 10⟩, ⟨2, 9 / 10⟩]) := by
  have hs : sortEventsByRiskDesc [⟨2, 1 / 10⟩, ⟨2, 9 / 10⟩]
      = [⟨2, 1 / 10⟩, ⟨2, 9 / 10⟩] := rfl
  rw [hs]
  intro h
  unfold SortedByRiskThenProb at h
  rw [List.pairwise_cons] at h
  have h2 := h.1 ⟨2, 9 / 10⟩ (List.mem_cons_self _ _)
  rcases h2 with h2 | ⟨heq, hle⟩
  · norm_num at h2
  · norm_num at hle

/-- C4 (amended): one full scan sorts the collision events by `risk_level`
descending only; the sort is stable, so events of equal `risk_level` keep
the order in which the scan produced them (probability is not a sort key). -/
theorem calculate_collision_risks_sort_spec (l : List CollisionEvent) :
    List.Pairwise (fun a b => b.risk_level ≤ a.risk_level) (sortEventsByRiskDesc l) ∧
      ∀ k : ℕ, (sortEventsByRiskDesc l).filter (fun x => decide (x.risk_level = k))
        = l.filter (fun x => decide (x.risk_level = k)) :=
  ⟨sortEventsByRiskDesc_pairwise l, sortEventsByRiskDesc_stable l⟩

/-! ## Spatial prefilter (`collision_detection.batch_collision_check`) -/

/-- An object state as consumed by `batch_collision_check` (positions are
exact decimal inputs, hence `ℚ`). -/
structure ObjState where
  id : ℕ
  x : ℚ
  y : ℚ
  z : ℚ

/-- The `cell` helper: integer floor-division of each coordinate by the
50 km cell size. -/
def cellOf (p : ObjState) : ℤ × ℤ × ℤ := (⌊p.x / 50⌋, ⌊p.y / 50⌋, ⌊p.z / 50⌋)

/-- Manhattan distance between grid cells
(`sum(abs(a - b) for a, b in zip(...))`). -/
def manhattanCell (c1 c2 : ℤ × ℤ × ℤ) : ℤ :=
  |c1.1 - c2.1| + |c1.2.1 - c2.2.1| + |c1.2.2 - c2.2.2|

/-- `vector_math.compute_distance` on two object states. -/
noncomputable def compute_distance_pos (p1 p2 : ObjState) : ℝ :=
  Real.sqrt (((p2.x - p1.x : ℚ) : ℝ) ^ 2 + ((p2.y - p1.y : ℚ) : ℝ) ^ 2
    + ((p2.z - p1.z : ℚ) : ℝ) ^ 2)

/-- A record of the list returned by `batch_collision_check`
(`is_high_risk` uses the 5 km `HIGH_RISK_THRESHOLD_KM`). -/
structure CollisionRecord where
  satellite_id : ℕ
  debris_id : ℕ
  distance_km : ℝ
  is_high_risk : Prop

/-- The exact-distance loop of `batch_collision_check` over the prefiltered
candidates (`detect_collision_simple`: risk iff `distance < threshold`). -/
noncomputable def collect_collisions (sat : ObjState) (threshold : ℝ) :
    List ObjState → List CollisionRecord
  | [] => []
  | d :: ds =>
    if compute_distance_pos sat d < threshold then
      { satellite_id := sat.id, debris_id := d.id,
        distance_km := compute_distance_pos sat d,
        is_high_risk := compute_distance_pos sat d < 5 } :: collect_collisions sat threshold ds
    else collect_collisions sat threshold ds

/-- `batch_collision_check` (threshold defaults to
`settings.COLLISION_THRESHOLD_KM = 10`): debris reaches the exact distance
check iff its cell is within Manhattan distance 1 of the satellite's. -/
noncomputable def batch_collision_check (sat : ObjState) (debris_list : List ObjState)
    (threshold : ℝ) : List CollisionRecord :=
  collect_collisions sat threshold
    (debris_list.filter fun d => decide (manhattanCell (cellOf sat) (cellOf d) ≤ 1))

/-- C8: a debris object reaches the exact distance check iff the Manhattan
distance of its grid cell from the satellite's is ≤ 1; consequently the
concrete pair at `(49.95, 49.95, 0)` / `(50.05, 50.05, 0)` — true distance
`√0.02 km`, far below the 10 km threshold, but diagonally adjacent cells
(Manhattan distance 2) — is dropped: `batch_collision_check` returns `[]`. -/
theorem batch_collision_check_prefilter_spec :
    (∀ (sat : ObjState) (l : List ObjState) (d : ObjState),
      (d ∈ l.filter fun e => decide (manhattanCell (cellOf sat) (cellOf e) ≤ 1)) ↔
        d ∈ l ∧ manhattanCell (cellOf sat) (cellOf d) ≤ 1) ∧
    compute_distance_pos ⟨0, 999/20, 999/20, 0⟩ ⟨1, 1001/20, 1001/20, 0⟩ < 10 ∧
    manhattanCell (cellOf ⟨0, 999/20, 999/20, 0⟩) (cellOf ⟨1, 1001/20, 1001/20, 0⟩) = 2 ∧
    batch_collision_check ⟨0, 999/20, 999/20, 0⟩ [⟨1, 1001/20, 1001/20, 0⟩] 10 = [] := by
  have hman : manhattanCell (cellOf (⟨0, 999/20, 999/20, 0⟩ : ObjState))
      (cellOf (⟨1, 1001/20, 1001/20, 0⟩ : ObjState)) = 2 := by
    unfold manhattanCell cellOf
    norm_num
  refine ⟨?_, ?_, hman, ?_⟩
  · intro sat l d
    rw [List.mem_filter]
    simp only [decide_eq_true_eq]
  · have h1 : compute_distance_pos (⟨0, 999/20, 999/20, 0⟩ : ObjState)
        (⟨1, 1001/20, 1001/20, 0⟩ : ObjState) = Real.sqrt (1/50) := by
      unfold compute_distance_pos
      push_cast
      norm_num
    rw [h1]
    have h2 : Real.sqrt (1/50) ≤ Real.sqrt 1 := Real.sqrt_le_sqrt (by norm_num)
    rw [Real.sqrt_one] at h2
    linarith
  · unfold batch_collision_check
    have hf : ([(⟨1, 1001/20, 1001/20, 0⟩ : ObjState)].filter fun d =>
        decide (manhattanCell (cellOf (⟨0, 999/20, 999/20, 0⟩ : ObjState)) (cellOf d) ≤ 1))
        = [] := by
      rw [List.filter_cons]
      simp [hman]
    rw [hf]
    rfl

/-! ## Scanner-side closest approach (`vector_math.compute_closest_approach`) -/

/-- The explicit coordinate form of `vector_math.compute_distance`. -/
noncomputable def vm_compute_distance (pos1 pos2 : Vec3) : ℝ :=
  Real.sqrt ((pos2 0 - pos1 0) ^ 2 + (pos2 1 - pos1 1) ^ 2 + (pos2 2 - pos1 2) ^ 2)

/-- `compute_closest_approach`: linear closest approach clamped to
`[0, time_window_sec]`, separation evaluated at the clamped time; parallel
motion (`denominator < 1e-10`) returns `(0, current_distance)`. -/
noncomputable def compute_closest_approach (pos1 vel1 pos2 vel2 : Vec3)
    (time_window_sec : ℝ) : ℝ × ℝ :=
  let current_distance := vm_compute_distance pos1 pos2
  let dx := pos2 0 - pos1 0
  let dy := pos2 1 - pos1 1
  let dz := pos2 2 - pos1 2
  let dvx := vel2 0 - vel1 0
  let dvy := vel2 1 - vel1 1
  let dvz := vel2 2 - vel1 2
  let numerator := -(dx * dvx + dy * dvy + dz * dvz)
  let denominator := dvx ^ 2 + dvy ^ 2 + dvz ^ 2
  if denominator < 1e-10 then (0, current_distance)
  else
    let t0 := numerator / denominator
    let t := if t0 < 0 then (0 : ℝ) else if time_window_sec < t0 then time_window_sec else t0
    let x1f := pos1 0 + vel1 0 * t
    let y1f := pos1 1 + vel1 1 * t
    let z1f := pos1 2 + vel1 2 * t
    let x2f := pos2 0 + vel2 0 * t
    let y2f := pos2 1 + vel2 1 * t
    let z2f := pos2 2 + vel2 2 * t
    (t, Real.sqrt ((x2f - x1f) ^ 2 + (y2f - y1f) ^ 2 + (z2f - z1f) ^ 2))

/-- C10: the scanner-side closest-approach time is always clamped to
`[0, time_window_sec]` (never negative, unlike the feature extractor's
signed `tca_seconds`), the returned minimum distance is the separation at
the clamped time, and on a concrete input whose true minimizer lies beyond
the window the returned distance strictly exceeds the true linear-motion
minimum distance. -/
theorem compute_closest_approach_clamped (pos1 vel1 pos2 vel2 : Vec3) (w : ℝ) (hw : 0 ≤ w) :
    0 ≤ (compute_closest_approach pos1 vel1 pos2 vel2 w).1 ∧
      (compute_closest_approach pos1 vel1 pos2 vel2 w).1 ≤ w ∧
      (compute_closest_approach pos1 vel1 pos2 vel2 w).2 =
        vm_compute_distance
          (pos1 + (compute_closest_approach pos1 vel1 pos2 vel2 w).1 • vel1)
          (pos2 + (compute_closest_approach pos1 vel1 pos2 vel2 w).1 • vel2) ∧
      (time_of_closest_approach (mkVec 0 0 0) (mkVec 0 0 0)
          (mkVec 10 0 0) (mkVec (-1) 0 0)).2
        < (compute_closest_approach (mkVec 0 0 0) (mkVec 0 0 0)
            (mkVec 10 0 0) (mkVec (-1) 0 0) 5).2 := by
  have hconc1 : (time_of_closest_approach (mkVec 0 0 0) (mkVec 0 0 0)
      (mkVec 10 0 0) (mkVec (-1) 0 0)).2 = 0 := by
    have hq : dotv (mkVec (-1) 0 0 - mkVec 0 0 0) (mkVec (-1) 0 0 - mkVec 0 0 0) = 1 := by
      norm_num [dotv, mkVec, Pi.sub_apply]
    have hp : dotv (mkVec 10 0 0 - mkVec 0 0 0) (mkVec (-1) 0 0 - mkVec 0 0 0) = -10 := by
      norm_num [dotv, mkVec, Pi.sub_apply]
    show normv (mkVec 10 0 0 - mkVec 0 0 0 +
        (if dotv (mkVec (-1) 0 0 - mkVec 0 0 0) (mkVec (-1) 0 0 - mkVec 0 0 0) < 1e-12
          then (0 : ℝ)
          else -(dotv (mkVec 10 0 0 - mkVec 0 0 0) (mkVec (-1) 0 0 - mkVec 0 0 0) /
            dotv (mkVec (-1) 0 0 - mkVec 0 0 0) (mkVec (-1) 0 0 - mkVec 0 0 0)))
          • (mkVec (-1) 0 0 - mkVec 0 0 0)) = 0
    rw [hq, hp]
    rw [if_neg (by norm_num)]
    have hdz : dotv (mkVec 10 0 0 - mkVec 0 0 0 + -(-10 / 1 : ℝ) • (mkVec (-1) 0 0 - mkVec 0 0 0))
        (mkVec 10 0 0 - mkVec 0 0 0 + -(-10 / 1 : ℝ) • (mkVec (-1) 0 0 - mkVec 0 0 0)) = 0 := by
      norm_num [dotv, mkVec, Pi.sub_apply, Pi.add_apply, Pi.smul_apply, smul_eq_mul]
    unfold normv
    rw [hdz, Real.sqrt_zero]
  have hconc2 : (compute_closest_approach (mkVec 0 0 0) (mkVec 0 0 0)
      (mkVec 10 0 0) (mkVec (-1) 0 0) 5).2 = Real.sqrt 25 := by
    unfold compute_closest_approach vm_compute_distance
    norm_num [mkVec]
  have hconc : (time_of_closest_approach (mkVec 0 0 0) (mkVec 0 0 0)
      (mkVec 10 0 0) (mkVec (-1) 0 0)).2
      < (compute_closest_approach (mkVec 0 0 0) (mkVec 0 0 0)
        (mkVec 10 0 0) (mkVec (-1) 0 0) 5).2 := by
    rw [hconc1, hconc2]
    have : (0 : ℝ) < 25 := by norm_num
    exact Real.sqrt_pos.mpr this
  by_cases hden : (vel2 0 - vel1 0) ^ 2 + (vel2 1 - vel1 1) ^ 2 + (vel2 2 - vel1 2) ^ 2 < 1e-10
  · have hc : compute_closest_approach pos1 vel1 pos2 vel2 w
        = (0, vm_compute_distance pos1 pos2) := by
      unfold compute_closest_approach
      rw [if_pos hden]
    rw [hc]
    refine ⟨le_refl 0, hw, ?_, hconc⟩
    show vm_compute_distance pos1 pos2
        = vm_compute_distance (pos1 + (0 : ℝ) • vel1) (pos2 + (0 : ℝ) • vel2)
    rw [zero_smul, zero_smul, add_zero, add_zero]
  · set t0 : ℝ := -((pos2 0 - pos1 0) * (vel2 0 - vel1 0) + (pos2 1 - pos1 1) * (vel2 1 - vel1 1)
      + (pos2 2 - pos1 2) * (vel2 2 - vel1 2)) /
        ((vel2 0 - vel1 0) ^ 2 + (vel2 1 - vel1 1) ^ 2 + (vel2 2 - vel1 2) ^ 2) with ht0
    set tt : ℝ := if t0 < 0 then (0 : ℝ) else if w < t0 then w else t0 with htt
    have hc1 : (compute_closest_approach pos1 vel1 pos2 vel2 w).1 = tt := by
      unfold compute_closest_approach
      rw [if_neg hden]
    have hc2 : (compute_closest_approach pos1 vel1 pos2 vel2 w).2
        = Real.sqrt ((pos2 0 + vel2 0 * tt - (pos1 0 + vel1 0 * tt)) ^ 2
          + (pos2 1 + vel2 1 * tt - (pos1 1 + vel1 1 * tt)) ^ 2
          + (pos2 2 + vel2 2 * tt - (pos1 2 + vel1 2 * tt)) ^ 2) := by
      unfold compute_closest_approach
      rw [if_neg hden]
    have htt0 : 0 ≤ tt := by
      rw [htt]
      split_ifs with h1 h2
      · exact le_refl 0
      · exact hw
      · exact not_lt.mp h1
    have httw : tt ≤ w := by
      rw [htt]
      split_ifs with h1 h2
      · exact hw
      · exact le_refl w
      · exact not_lt.mp h2
    refine ⟨hc1 ▸ htt0, hc1 ▸ httw, ?_, hconc⟩
    rw [hc1, hc2]
    unfold vm_compute_distance
    congr 1
    simp only [Pi.add_apply, Pi.smul_apply, smul_eq_mul]
    ring

/-- Witness for C10 at the default one-hour window. -/
theorem compute_closest_approach_clamped_witness :
    0 ≤ (compute_closest_approach (mkVec 0 0 0) (mkVec 0 0 0)
        (mkVec 10 0 0) (mkVec (-1) 0 0) 3600).1 ∧
      (compute_closest_approach (mkVec 0 0 0) (mkVec 0 0 0)
        (mkVec 10 0 0) (mkVec (-1) 0 0) 3600).1 ≤ 3600 :=
  ⟨(compute_closest_approach_clamped (mkVec 0 0 0) (mkVec 0 0 0)
      (mkVec 10 0 0) (mkVec (-1) 0 0) 3600 (by norm_num)).1,
    (compute_closest_approach_clamped (mkVec 0 0 0) (mkVec 0 0 0)
      (mkVec 10 0 0) (mkVec (-1) 0 0) 3600 (by norm_num)).2.1⟩

end OrbitShield
